import Mathlib

/-!
# Verification of the prediction-market ledger and settlement core

Shallow embedding of the financial core of the `betting_thing` repository:

* `src/services/ledgerCore.ts` — the generic ledger engine
  (`executeAtomicChange`, `credit`, `debit`), instantiated twice
  (token ledger and points ledger) via `createLedgerService`;
* `src/services/tokenAllowance.ts` — daily allowance replenishment
  (`ensureAllowance`, `calculateAllowanceTopUp`, `consumeTokens`);
* `src/services/events.ts` — event settlement and cancellation
  (`settle`, `cancel`, `calculatePayout`);
* `src/services/predictions.ts` — `calculateCashoutValue`;
* `src/services/settlementWorker.ts` and `src/services/outcomes.ts` —
  `determineOutcome`, `normalizeOutcome`, `matchOutcomeExact`,
  `matchOutcomeByName`, and the worker's per-event error handling.

Modelling conventions: database rows keyed by a unique id are association
lists keyed by `String`; JS `number` amounts are `Int` (balances, stakes)
or `ℚ` (odds, multipliers); `Date` values at UTC-day granularity are `Int`
day numbers; timestamps and free-text descriptions carried by rows are
dropped as they take part in no computation.  A Prisma transaction that
throws rolls back: operations return `Except Err`, and an `error` result
leaves the caller's state unchanged.
-/

namespace Betting

instance {ε α : Type} [DecidableEq ε] [DecidableEq α] : DecidableEq (Except ε α) :=
  fun x y =>
    match x, y with
    | .ok a, .ok b => if h : a = b then isTrue (by rw [h]) else isFalse (by simp [h])
    | .error a, .error b => if h : a = b then isTrue (by rw [h]) else isFalse (by simp [h])
    | .ok _, .error _ => isFalse (by simp)
    | .error _, .ok _ => isFalse (by simp)

/-! ## Association-list stores (rows keyed by a unique column) -/

def alookup {α : Type} : List (String × α) → String → Option α
  | [], _ => none
  | p :: rest, u => if p.1 = u then some p.2 else alookup rest u

/-- Upsert: replace the row with key `u`, or append a fresh row. -/
def aset {α : Type} : List (String × α) → String → α → List (String × α)
  | [], u, v => [(u, v)]
  | p :: rest, u, v => if p.1 = u then (u, v) :: rest else p :: aset rest u v

theorem alookup_aset_self {α : Type} (s : List (String × α)) (u : String) (v : α) :
    alookup (aset s u v) u = some v := by
  induction s with
  | nil => simp [aset, alookup]
  | cons p rest ih =>
    obtain ⟨a, b⟩ := p
    by_cases h : a = u
    · simp [aset, alookup, h]
    · simp [aset, alookup, h, ih]

theorem alookup_aset_of_ne {α : Type} (s : List (String × α)) (u u' : String) (v : α)
    (h : u' ≠ u) : alookup (aset s u v) u' = alookup s u' := by
  have h' : ¬ u = u' := fun hh => h hh.symm
  induction s with
  | nil => simp [aset, alookup, h']
  | cons p rest ih =>
    obtain ⟨a, b⟩ := p
    by_cases hp : a = u
    · subst hp
      simp [aset, alookup, h']
    · simp [aset, alookup, hp, ih]

theorem mem_aset {α : Type} {s : List (String × α)} {u : String} {v : α} {p : String × α}
    (h : p ∈ aset s u v) : p = (u, v) ∨ p ∈ s := by
  induction s with
  | nil => simpa [aset] using h
  | cons q rest ih =>
    obtain ⟨a, b⟩ := q
    by_cases hq : a = u
    · simp only [aset, hq, if_pos rfl] at h
      rcases List.mem_cons.mp h with h | h
      · exact Or.inl h
      · exact Or.inr (List.mem_cons_of_mem _ h)
    · simp only [aset, hq, if_neg hq] at h
      rcases List.mem_cons.mp h with h | h
      · exact Or.inr (List.mem_cons.mpr (Or.inl h))
      · rcases ih h with h | h
        · exact Or.inl h
        · exact Or.inr (List.mem_cons_of_mem _ h)

theorem alookup_mem {α : Type} {s : List (String × α)} {u : String} {v : α}
    (h : alookup s u = some v) : (u, v) ∈ s := by
  induction s with
  | nil => simp [alookup] at h
  | cons p rest ih =>
    obtain ⟨a, b⟩ := p
    by_cases hp : a = u
    · subst hp
      have hb : b = v := by simpa [alookup] using h
      subst hb
      exact List.mem_cons_self _ _
    · simp only [alookup, hp, if_neg hp] at h
      exact List.mem_cons_of_mem _ (ih h)

/-! ## The generic ledger engine (`src/services/ledgerCore.ts`)

`createLedgerService` is generic over the currency; the token ledger
(`src/services/ledger.ts`) and the points ledger
(`src/services/pointsLedger.ts`) are the two instantiations.  A
`LedgerStore` models one currency's persisted state: for each user the
cached balance column together with that user's immutable transaction
rows (in insertion order). -/

structure LedgerEntry where
  userId : String
  amount : Int
  type : String
  referenceId : Option String
  balanceAfter : Int
  deriving Repr, DecidableEq

structure Ledger where
  cachedBalance : Int
  entries : List LedgerEntry
  deriving Repr, DecidableEq

abbrev LedgerStore := List (String × Ledger)

structure EntryInput where
  userId : String
  amount : Int
  type : String
  referenceId : Option String := none
  deriving Repr, DecidableEq

structure ChangeResult where
  newBalance : Int
  deriving Repr, DecidableEq

/-- Typed failures (`AppError` codes in `src/utils`). -/
inductive Err where
  | notFound
  | badRequest
  | forbidden
  | insufficientBalance (required : Int) (available : Int)
  | eventAlreadySettled
  | invalidOutcome
  deriving Repr, DecidableEq

/-- `executeAtomicChange` from `ledgerCore.ts`: read the user's balance
under the row lock, reject if the new balance would be negative, insert
the immutable entry with its balance-after snapshot, write the cached
balance. -/
def executeAtomicChange (s : LedgerStore) (e : EntryInput) :
    Except Err (LedgerStore × ChangeResult) :=
  match alookup s e.userId with
  | none => .error .notFound
  | some l =>
    if l.cachedBalance + e.amount < 0 then
      .error (.insufficientBalance |e.amount| l.cachedBalance)
    else
      .ok (aset s e.userId
            { cachedBalance := l.cachedBalance + e.amount,
              entries := l.entries ++
                [{ userId := e.userId, amount := e.amount, type := e.type,
                   referenceId := e.referenceId,
                   balanceAfter := l.cachedBalance + e.amount }] },
           { newBalance := l.cachedBalance + e.amount })

/-- `credit` from `ledgerCore.ts`: rejects non-positive amounts and the
reserved `PURCHASE` kind, then runs the atomic change. -/
def credit (s : LedgerStore) (e : EntryInput) : Except Err (LedgerStore × ChangeResult) :=
  if e.amount ≤ 0 then .error .badRequest
  else if e.type = "PURCHASE" then .error .forbidden
  else executeAtomicChange s e

/-- `debit` from `ledgerCore.ts`: forces the amount negative and runs the
atomic change, with no further validation. -/
def debit (s : LedgerStore) (e : EntryInput) : Except Err (LedgerStore × ChangeResult) :=
  executeAtomicChange s { e with amount := if e.amount > 0 then -e.amount else e.amount }

inductive LedgerOp where
  | creditOp (e : EntryInput)
  | debitOp (e : EntryInput)
  deriving Repr, DecidableEq

def runOp (s : LedgerStore) : LedgerOp → Except Err (LedgerStore × ChangeResult)
  | .creditOp e => credit s e
  | .debitOp e => debit s e

/-- A failed operation aborts its transaction: the store is unchanged. -/
def applyOp (s : LedgerStore) (op : LedgerOp) : LedgerStore :=
  match runOp s op with
  | .ok (s', _) => s'
  | .error _ => s

def applyOps (s : LedgerStore) (ops : List LedgerOp) : LedgerStore :=
  ops.foldl applyOp s

def entrySum (l : Ledger) : Int := (l.entries.map LedgerEntry.amount).sum

/-- The per-row invariant: the cached balance equals the sum of the
ledger entries and is non-negative. -/
def LedgerGood (l : Ledger) : Prop := l.cachedBalance = entrySum l ∧ 0 ≤ l.cachedBalance

instance (l : Ledger) : Decidable (LedgerGood l) := by
  unfold LedgerGood; infer_instance

def StoreGood (s : LedgerStore) : Prop := ∀ p ∈ s, LedgerGood p.2

instance (s : LedgerStore) : Decidable (StoreGood s) := by
  unfold StoreGood; infer_instance

theorem storeGood_lookup {s : LedgerStore} {u : String} {l : Ledger}
    (hs : StoreGood s) (h : alookup s u = some l) : LedgerGood l :=
  hs (u, l) (alookup_mem h)

theorem executeAtomicChange_good {s s' : LedgerStore} {e : EntryInput} {r : ChangeResult}
    (hs : StoreGood s) (h : executeAtomicChange s e = .ok (s', r)) : StoreGood s' := by
  unfold executeAtomicChange at h
  split at h
  · exact absurd h (by simp)
  next l hl =>
    split at h
    · exact absurd h (by simp)
    next hneg =>
      cases h
      intro p hp
      rcases mem_aset hp with hnew | hold
      · subst hnew
        have hgood := storeGood_lookup hs hl
        dsimp only
        refine ⟨?_, show (0:Int) ≤ l.cachedBalance + e.amount by omega⟩
        have hsum : entrySum
            { cachedBalance := l.cachedBalance + e.amount,
              entries := l.entries ++
                [{ userId := e.userId, amount := e.amount, type := e.type,
                   referenceId := e.referenceId,
                   balanceAfter := l.cachedBalance + e.amount }] } =
            entrySum l + e.amount := by
          simp [entrySum]
        rw [hsum, ← hgood.1]
      · exact hs p hold

theorem runOp_good {s s' : LedgerStore} {op : LedgerOp} {r : ChangeResult}
    (hs : StoreGood s) (h : runOp s op = .ok (s', r)) : StoreGood s' := by
  cases op with
  | creditOp e =>
    simp only [runOp, credit] at h
    split_ifs at h with h1 h2
    exact executeAtomicChange_good hs h
  | debitOp e =>
    simp only [runOp, debit] at h
    exact executeAtomicChange_good hs h

theorem applyOp_good {s : LedgerStore} (op : LedgerOp) (hs : StoreGood s) :
    StoreGood (applyOp s op) := by
  unfold applyOp
  cases hrun : runOp s op with
  | ok p =>
    obtain ⟨s', r⟩ := p
    exact runOp_good hs hrun
  | error _ => exact hs

/-- **C1.** For every user of a currency's ledger store (the token ledger
and the points ledger are the two instantiations of
`createLedgerService`), after any sequence of `credit`/`debit`
operations the cached balance equals the sum of the amounts of that
user's ledger entries, and it is never negative.  Every intermediate
state is `applyOps` of a prefix, so the invariant holds after every
operation; failed operations roll back and leave the store unchanged. -/
theorem ledger_cached_balance_invariant (s : LedgerStore) (ops : List LedgerOp)
    (hs : StoreGood s) : StoreGood (applyOps s ops) := by
  induction ops generalizing s with
  | nil => exact hs
  | cons op rest ih => exact ih (applyOp s op) (applyOp_good op hs)

theorem ledger_cached_balance_invariant_witness :
    StoreGood [("alice", { cachedBalance := 0, entries := [] })] ∧
      StoreGood (applyOps [("alice", { cachedBalance := 0, entries := [] })]
        [.creditOp { userId := "alice", amount := 5, type := "DAILY_ALLOWANCE" },
         .debitOp { userId := "alice", amount := 3, type := "PREDICTION_STAKE" },
         .debitOp { userId := "alice", amount := 10, type := "PREDICTION_STAKE" },
         .creditOp { userId := "alice", amount := 0, type := "ADMIN_CREDIT" }]) :=
  ⟨by decide,
   ledger_cached_balance_invariant _ _ (by decide)⟩

theorem executeAtomicChange_insufficient {s : LedgerStore} {e : EntryInput} {l : Ledger}
    (hl : alookup s e.userId = some l) (hneg : l.cachedBalance + e.amount < 0) :
    executeAtomicChange s e = .error (.insufficientBalance |e.amount| l.cachedBalance) := by
  unfold executeAtomicChange
  rw [hl]
  exact if_pos hneg

theorem executeAtomicChange_ok {s : LedgerStore} {e : EntryInput} {l : Ledger}
    (hl : alookup s e.userId = some l) (hnn : 0 ≤ l.cachedBalance + e.amount) :
    executeAtomicChange s e = .ok (aset s e.userId
      { cachedBalance := l.cachedBalance + e.amount,
        entries := l.entries ++
          [{ userId := e.userId, amount := e.amount, type := e.type,
             referenceId := e.referenceId,
             balanceAfter := l.cachedBalance + e.amount }] },
      { newBalance := l.cachedBalance + e.amount }) := by
  unfold executeAtomicChange
  rw [hl]
  exact if_neg (by omega)

/-- **C8.** A `debit` whose (forced-negative) amount would take the user's
current balance below zero fails with `InsufficientBalance` carrying the
required amount (`Math.abs` of the forced amount) and the available
cached balance, and the failed operation leaves the store exactly as
before: no entry is appended, no balance written. -/
theorem debit_insufficient_balance_rolls_back (s : LedgerStore) (e : EntryInput) (l : Ledger)
    (hl : alookup s e.userId = some l)
    (hneg : l.cachedBalance + (if e.amount > 0 then -e.amount else e.amount) < 0) :
    debit s e = .error (.insufficientBalance
        |if e.amount > 0 then -e.amount else e.amount| l.cachedBalance)
    ∧ applyOp s (.debitOp e) = s := by
  have hd : debit s e = .error (.insufficientBalance
      |if e.amount > 0 then -e.amount else e.amount| l.cachedBalance) :=
    executeAtomicChange_insufficient hl hneg
  refine ⟨hd, ?_⟩
  simp only [applyOp, runOp, hd]

theorem debit_insufficient_balance_rolls_back_witness :
    alookup ([("bob", { cachedBalance := 2, entries :=
        [{ userId := "bob", amount := 2, type := "DAILY_ALLOWANCE",
           referenceId := none, balanceAfter := 2 }] })] : LedgerStore) "bob" =
      some { cachedBalance := 2, entries :=
        [{ userId := "bob", amount := 2, type := "DAILY_ALLOWANCE",
           referenceId := none, balanceAfter := 2 }] } ∧
    (debit ([("bob", { cachedBalance := 2, entries :=
        [{ userId := "bob", amount := 2, type := "DAILY_ALLOWANCE",
           referenceId := none, balanceAfter := 2 }] })] : LedgerStore)
        { userId := "bob", amount := 5, type := "PREDICTION_STAKE" } =
      .error (.insufficientBalance
        |if (5:Int) > 0 then -(5:Int) else 5| 2)
    ∧ applyOp ([("bob", { cachedBalance := 2, entries :=
        [{ userId := "bob", amount := 2, type := "DAILY_ALLOWANCE",
           referenceId := none, balanceAfter := 2 }] })] : LedgerStore)
        (.debitOp { userId := "bob", amount := 5, type := "PREDICTION_STAKE" }) =
      [("bob", { cachedBalance := 2, entries :=
        [{ userId := "bob", amount := 2, type := "DAILY_ALLOWANCE",
           referenceId := none, balanceAfter := 2 }] })]) :=
  ⟨by decide,
   debit_insufficient_balance_rolls_back
     ([("bob", { cachedBalance := 2, entries :=
        [{ userId := "bob", amount := 2, type := "DAILY_ALLOWANCE",
           referenceId := none, balanceAfter := 2 }] })] : LedgerStore)
     { userId := "bob", amount := 5, type := "PREDICTION_STAKE" }
     { cachedBalance := 2, entries :=
        [{ userId := "bob", amount := 2, type := "DAILY_ALLOWANCE",
           referenceId := none, balanceAfter := 2 }] }
     (by decide) (by decide)⟩

/-- **C10.** The `debit` path performs none of `credit`'s input
validation: a zero-amount debit succeeds, appending a zero-amount entry
and leaving the balance unchanged, and a debit with the reserved
`PURCHASE` kind succeeds (given sufficient balance); the positivity
check and the reserved-kind rejection fire only on the `credit` path. -/
theorem debit_skips_credit_validation (s : LedgerStore) (u t : String) (l : Ledger) (a : Int)
    (hl : alookup s u = some l) (hnn : 0 ≤ l.cachedBalance)
    (hpos : 0 < a) (hle : a ≤ l.cachedBalance) :
    debit s { userId := u, amount := 0, type := t } =
      .ok (aset s u
        { cachedBalance := l.cachedBalance,
          entries := l.entries ++
            [{ userId := u, amount := 0, type := t, referenceId := none,
               balanceAfter := l.cachedBalance }] },
        { newBalance := l.cachedBalance })
    ∧ debit s { userId := u, amount := a, type := "PURCHASE" } =
      .ok (aset s u
        { cachedBalance := l.cachedBalance - a,
          entries := l.entries ++
            [{ userId := u, amount := -a, type := "PURCHASE", referenceId := none,
               balanceAfter := l.cachedBalance - a }] },
        { newBalance := l.cachedBalance - a })
    ∧ credit s { userId := u, amount := 0, type := t } = .error .badRequest
    ∧ credit s { userId := u, amount := a, type := "PURCHASE" } = .error .forbidden := by
  refine ⟨?_, ?_, ?_, ?_⟩
  · have h1 : debit s { userId := u, amount := 0, type := t } =
        executeAtomicChange s { userId := u, amount := 0, type := t } := by
      simp [debit]
    rw [h1]
    have h2 := executeAtomicChange_ok (s := s)
      (e := { userId := u, amount := 0, type := t }) hl
      (show (0:Int) ≤ l.cachedBalance + 0 by omega)
    simpa using h2
  · have h1 : debit s { userId := u, amount := a, type := "PURCHASE" } =
        executeAtomicChange s { userId := u, amount := -a, type := "PURCHASE" } := by
      simp [debit, hpos]
    rw [h1]
    have h2 := executeAtomicChange_ok (s := s)
      (e := { userId := u, amount := -a, type := "PURCHASE" }) hl
      (show (0:Int) ≤ l.cachedBalance + -a by omega)
    have h3 : l.cachedBalance + -a = l.cachedBalance - a := by omega
    rw [h3] at h2
    exact h2
  · simp [credit]
  · have ha : ¬ (a ≤ 0) := by omega
    simp [credit, ha]

theorem debit_skips_credit_validation_witness :
    alookup ([("dana", { cachedBalance := 7, entries := [] })] : LedgerStore) "dana" =
      some { cachedBalance := 7, entries := [] } ∧
    (debit ([("dana", { cachedBalance := 7, entries := [] })] : LedgerStore)
        { userId := "dana", amount := 0, type := "ADMIN_DEBIT" } =
      .ok (aset ([("dana", { cachedBalance := 7, entries := [] })] : LedgerStore) "dana"
        { cachedBalance := 7,
          entries := [] ++
            [{ userId := "dana", amount := 0, type := "ADMIN_DEBIT", referenceId := none,
               balanceAfter := 7 }] },
        { newBalance := 7 })
    ∧ debit ([("dana", { cachedBalance := 7, entries := [] })] : LedgerStore)
        { userId := "dana", amount := 4, type := "PURCHASE" } =
      .ok (aset ([("dana", { cachedBalance := 7, entries := [] })] : LedgerStore) "dana"
        { cachedBalance := 7 - 4,
          entries := [] ++
            [{ userId := "dana", amount := -4, type := "PURCHASE", referenceId := none,
               balanceAfter := 7 - 4 }] },
        { newBalance := 7 - 4 })
    ∧ credit ([("dana", { cachedBalance := 7, entries := [] })] : LedgerStore)
        { userId := "dana", amount := 0, type := "ADMIN_DEBIT" } = .error .badRequest
    ∧ credit ([("dana", { cachedBalance := 7, entries := [] })] : LedgerStore)
        { userId := "dana", amount := 4, type := "PURCHASE" } = .error .forbidden) :=
  ⟨by decide,
   debit_skips_credit_validation
     ([("dana", { cachedBalance := 7, entries := [] })] : LedgerStore)
     "dana" "ADMIN_DEBIT" { cachedBalance := 7, entries := [] } 4
     (by decide) (by decide) (by decide) (by decide)⟩

/-! ## Token allowance (`src/services/tokenAllowance.ts`)

`config.tokens` supplies `dailyAllowance` and `maxAllowance`.  Dates are
UTC day numbers (`startOfUtcDay` granularity), so `daysBetween` of two
day starts is plain subtraction.  `ensureAllowance` reads the allowance
row under `FOR UPDATE` and lazily replenishes; note that in the
`daysSinceReset > 0`, `tokensToAdd = 0` branch the stored row advances
`lastResetDate` to today while the *returned* status keeps the old
`lastResetDate` — the model mirrors this faithfully. -/

structure TokensConfig where
  dailyAllowance : Int
  maxAllowance : Int
  deriving Repr, DecidableEq

structure AllowanceRec where
  tokensRemaining : Int
  lastResetDate : Int
  deriving Repr, DecidableEq

structure AllowanceWorld where
  tokens : LedgerStore
  allowance : List (String × AllowanceRec)
  deriving Repr, DecidableEq

def calculateAllowanceTopUp (cfg : TokensConfig) (tokensRemaining daysSinceReset : Int) : Int :=
  min (daysSinceReset * cfg.dailyAllowance) (max 0 (cfg.maxAllowance - tokensRemaining))

def ensureAllowance (cfg : TokensConfig) (today : Int) (userId : String)
    (w : AllowanceWorld) : Except Err (AllowanceWorld × AllowanceRec) :=
  match alookup w.allowance userId with
  | none =>
    match credit w.tokens { userId := userId, amount := cfg.dailyAllowance,
                            type := "DAILY_ALLOWANCE" } with
    | .error err => .error err
    | .ok (tokens', res) =>
      .ok ({ tokens := tokens',
             allowance := aset w.allowance userId
               { tokensRemaining := res.newBalance, lastResetDate := today } },
           { tokensRemaining := res.newBalance, lastResetDate := today })
  | some a =>
    if 0 < today - a.lastResetDate then
      let tokensToAdd := calculateAllowanceTopUp cfg a.tokensRemaining (today - a.lastResetDate)
      if 0 < tokensToAdd then
        match credit w.tokens
            { userId := userId, amount := tokensToAdd, type := "DAILY_ALLOWANCE" } with
        | .error err => .error err
        | .ok (tokens', res) =>
          let a2 : AllowanceRec := { tokensRemaining := res.newBalance, lastResetDate := today }
          .ok ({ tokens := tokens', allowance := aset w.allowance userId a2 }, a2)
      else
        let a2 : AllowanceRec := { tokensRemaining := a.tokensRemaining, lastResetDate := today }
        .ok ({ w with allowance := aset w.allowance userId a2 },
             { tokensRemaining := a.tokensRemaining, lastResetDate := a.lastResetDate })
    else
      .ok (w, { tokensRemaining := a.tokensRemaining, lastResetDate := a.lastResetDate })

/-- `consumeTokens`: ensure/advance the allowance, debit the token ledger
for the stake, then store `max(0, statusRemaining − amount)` as the new
allowance counter — a quantity distinct from the ledger balance. -/
def consumeTokens (cfg : TokensConfig) (today : Int) (userId : String) (amount : Int)
    (referenceId : String) (w : AllowanceWorld) :
    Except Err (AllowanceWorld × ChangeResult) :=
  if amount ≤ 0 then .error .badRequest
  else
    match ensureAllowance cfg today userId w with
    | .error err => .error err
    | .ok (w1, status) =>
      match debit w1.tokens
          { userId := userId, amount := amount, type := "PREDICTION_STAKE",
            referenceId := some referenceId } with
      | .error err => .error err
      | .ok (tokens2, res) =>
        let a2 : AllowanceRec :=
          { tokensRemaining := max 0 (status.tokensRemaining - amount),
            lastResetDate := status.lastResetDate }
        .ok ({ tokens := tokens2, allowance := aset w1.allowance userId a2 }, res)

/-- **C4.** For every positive amount, a successful `consumeTokens` sets
the allowance counter to `max(0, remaining − amount)` (the `remaining`
returned by `ensureAllowance`), while the token ledger is debited by the
full amount in the same atomic unit — the two quantities are updated
independently. -/
theorem consumeTokens_decrements_allowance_clamped
    (cfg : TokensConfig) (today : Int) (u ref : String) (amount : Int)
    (w w1 w' : AllowanceWorld) (st : AllowanceRec) (res : ChangeResult) (l1 : Ledger)
    (hens : ensureAllowance cfg today u w = .ok (w1, st))
    (hl : alookup w1.tokens u = some l1)
    (hcons : consumeTokens cfg today u amount ref w = .ok (w', res)) :
    alookup w'.allowance u =
      some { tokensRemaining := max 0 (st.tokensRemaining - amount),
             lastResetDate := st.lastResetDate }
    ∧ res.newBalance = l1.cachedBalance - amount
    ∧ alookup w'.tokens u = some
        { cachedBalance := l1.cachedBalance - amount,
          entries := l1.entries ++
            [{ userId := u, amount := -amount, type := "PREDICTION_STAKE",
               referenceId := some ref,
               balanceAfter := l1.cachedBalance - amount }] } := by
  unfold consumeTokens at hcons
  split_ifs at hcons with hamt
  rw [hens] at hcons
  dsimp only at hcons
  have hforced : debit w1.tokens
      { userId := u, amount := amount, type := "PREDICTION_STAKE",
        referenceId := some ref } =
      executeAtomicChange w1.tokens
      { userId := u, amount := -amount, type := "PREDICTION_STAKE",
        referenceId := some ref } := by
    have hpos : amount > 0 := by omega
    simp [debit, hpos]
  rw [hforced] at hcons
  unfold executeAtomicChange at hcons
  rw [hl] at hcons
  dsimp only at hcons
  by_cases hneg : l1.cachedBalance + -amount < 0
  · rw [if_pos hneg] at hcons
    exact absurd hcons (by simp)
  · rw [if_neg hneg] at hcons
    have hsub : l1.cachedBalance + -amount = l1.cachedBalance - amount := by omega
    rw [hsub] at hcons
    cases hcons
    exact ⟨alookup_aset_self _ _ _, rfl, alookup_aset_self _ _ _⟩

/-- Concrete state for the C4 witness: user `ann`, balance 10, allowance
counter 10 last reset on day 100. -/
def annStart : AllowanceWorld :=
  { tokens := [("ann", { cachedBalance := 10, entries := [] })],
    allowance := [("ann", { tokensRemaining := 10, lastResetDate := 100 })] }

def annStakeEntry : LedgerEntry :=
  { userId := "ann", amount := -4, type := "PREDICTION_STAKE",
    referenceId := some "p1", balanceAfter := 6 }

def annAfter : AllowanceWorld :=
  { tokens := [("ann", { cachedBalance := 6, entries := [annStakeEntry] })],
    allowance := [("ann", { tokensRemaining := 6, lastResetDate := 100 })] }

theorem consumeTokens_decrements_allowance_clamped_witness :
    ensureAllowance { dailyAllowance := 5, maxAllowance := 35 } 100 "ann" annStart =
      .ok (annStart, { tokensRemaining := 10, lastResetDate := 100 }) ∧
    (alookup annAfter.allowance "ann" =
       some { tokensRemaining := max 0 (10 - 4), lastResetDate := 100 }
     ∧ ChangeResult.newBalance { newBalance := 6 } = 10 - 4
     ∧ alookup annAfter.tokens "ann" =
       some { cachedBalance := 10 - 4,
              entries := [] ++
                [{ userId := "ann", amount := -4, type := "PREDICTION_STAKE",
                   referenceId := some "p1", balanceAfter := 10 - 4 }] }) :=
  ⟨by decide,
   consumeTokens_decrements_allowance_clamped
     { dailyAllowance := 5, maxAllowance := 35 } 100 "ann" "p1" 4
     annStart annStart annAfter
     { tokensRemaining := 10, lastResetDate := 100 }
     { newBalance := 6 }
     { cachedBalance := 10, entries := [] }
     (by decide) (by decide) (by decide)⟩

/-- Lazy replenishment as the status check runs it: apply
`ensureAllowance` and keep the new state (an error rolls back). -/
def replenish (cfg : TokensConfig) (u : String) (w : AllowanceWorld) (today : Int) :
    AllowanceWorld :=
  match ensureAllowance cfg today u w with
  | .ok (w', _) => w'
  | .error _ => w

def replenishMany (cfg : TokensConfig) (u : String) (w : AllowanceWorld)
    (days : List Int) : AllowanceWorld :=
  days.foldl (replenish cfg u) w

/-- The allowance subsystem invariant for one user: the allowance row
exists, its counter agrees with the (healthy) token-ledger balance, and
it is at most `maxAllowance`. -/
def AllowanceInv (cfg : TokensConfig) (u : String) (w : AllowanceWorld) : Prop :=
  ∃ a l, alookup w.allowance u = some a ∧ alookup w.tokens u = some l ∧
    a.tokensRemaining = l.cachedBalance ∧ LedgerGood l ∧
    a.tokensRemaining ≤ cfg.maxAllowance

theorem credit_ok {s : LedgerStore} {l : Ledger} {e : EntryInput}
    (hl : alookup s e.userId = some l) (hpos : 0 < e.amount) (htype : e.type ≠ "PURCHASE")
    (hnn : 0 ≤ l.cachedBalance + e.amount) :
    credit s e = .ok (aset s e.userId
      { cachedBalance := l.cachedBalance + e.amount,
        entries := l.entries ++
          [{ userId := e.userId, amount := e.amount, type := e.type,
             referenceId := e.referenceId,
             balanceAfter := l.cachedBalance + e.amount }] },
      { newBalance := l.cachedBalance + e.amount }) := by
  unfold credit
  rw [if_neg (by omega), if_neg htype]
  exact executeAtomicChange_ok hl hnn

theorem ensureAllowance_topup_pos (cfg : TokensConfig) (today : Int) (u : String)
    (w : AllowanceWorld) (a : AllowanceRec) (l : Ledger)
    (ha : alookup w.allowance u = some a) (hl : alookup w.tokens u = some l)
    (hnn : 0 ≤ l.cachedBalance)
    (hd : 0 < today - a.lastResetDate)
    (htp : 0 < calculateAllowanceTopUp cfg a.tokensRemaining (today - a.lastResetDate)) :
    ensureAllowance cfg today u w = .ok
      ({ tokens := aset w.tokens u
           { cachedBalance :=
               l.cachedBalance + calculateAllowanceTopUp cfg a.tokensRemaining
                 (today - a.lastResetDate),
             entries := l.entries ++
               [{ userId := u,
                  amount := calculateAllowanceTopUp cfg a.tokensRemaining
                    (today - a.lastResetDate),
                  type := "DAILY_ALLOWANCE", referenceId := none,
                  balanceAfter := l.cachedBalance +
                    calculateAllowanceTopUp cfg a.tokensRemaining
                      (today - a.lastResetDate) }] },
         allowance := aset w.allowance u
           { tokensRemaining :=
               l.cachedBalance + calculateAllowanceTopUp cfg a.tokensRemaining
                 (today - a.lastResetDate),
             lastResetDate := today } },
       { tokensRemaining :=
           l.cachedBalance + calculateAllowanceTopUp cfg a.tokensRemaining
             (today - a.lastResetDate),
         lastResetDate := today }) := by
  have hcred : credit w.tokens
      { userId := u,
        amount := calculateAllowanceTopUp cfg a.tokensRemaining (today - a.lastResetDate),
        type := "DAILY_ALLOWANCE" } = .ok
      (aset w.tokens u
        { cachedBalance :=
            l.cachedBalance + calculateAllowanceTopUp cfg a.tokensRemaining
              (today - a.lastResetDate),
          entries := l.entries ++
            [{ userId := u,
               amount := calculateAllowanceTopUp cfg a.tokensRemaining
                 (today - a.lastResetDate),
               type := "DAILY_ALLOWANCE", referenceId := none,
               balanceAfter := l.cachedBalance +
                 calculateAllowanceTopUp cfg a.tokensRemaining
                   (today - a.lastResetDate) }] },
       { newBalance :=
           l.cachedBalance + calculateAllowanceTopUp cfg a.tokensRemaining
             (today - a.lastResetDate) }) := by
    have hnn2 : (0:Int) ≤ l.cachedBalance +
        calculateAllowanceTopUp cfg a.tokensRemaining (today - a.lastResetDate) := by
      omega
    exact credit_ok hl htp (show ("DAILY_ALLOWANCE" : String) ≠ "PURCHASE" by decide) hnn2
  unfold ensureAllowance
  rw [ha]
  dsimp only
  rw [if_pos hd, if_pos htp, hcred]

theorem ensureAllowance_topup_zero (cfg : TokensConfig) (today : Int) (u : String)
    (w : AllowanceWorld) (a : AllowanceRec)
    (ha : alookup w.allowance u = some a)
    (hd : 0 < today - a.lastResetDate)
    (htp : ¬ 0 < calculateAllowanceTopUp cfg a.tokensRemaining (today - a.lastResetDate)) :
    ensureAllowance cfg today u w = .ok
      ({ w with
         allowance :=
           aset w.allowance u { tokensRemaining := a.tokensRemaining, lastResetDate := today } },
       { tokensRemaining := a.tokensRemaining, lastResetDate := a.lastResetDate }) := by
  unfold ensureAllowance
  rw [ha]
  dsimp only
  rw [if_pos hd, if_neg htp]

theorem ensureAllowance_same_day (cfg : TokensConfig) (today : Int) (u : String)
    (w : AllowanceWorld) (a : AllowanceRec)
    (ha : alookup w.allowance u = some a)
    (hd : ¬ 0 < today - a.lastResetDate) :
    ensureAllowance cfg today u w = .ok
      (w, { tokensRemaining := a.tokensRemaining, lastResetDate := a.lastResetDate }) := by
  unfold ensureAllowance
  rw [ha]
  dsimp only
  rw [if_neg hd]

theorem replenish_inv {cfg : TokensConfig} {u : String} {w : AllowanceWorld} (today : Int)
    (h : AllowanceInv cfg u w) : AllowanceInv cfg u (replenish cfg u w today) := by
  obtain ⟨a, l, ha, hl, hsync, hgood, hcap⟩ := h
  unfold replenish
  by_cases hd : 0 < today - a.lastResetDate
  · by_cases htp : 0 < calculateAllowanceTopUp cfg a.tokensRemaining (today - a.lastResetDate)
    · rw [ensureAllowance_topup_pos cfg today u w a l ha hl hgood.2 hd htp]
      refine ⟨_, _, alookup_aset_self _ _ _, alookup_aset_self _ _ _, rfl, ?_, ?_⟩
      · constructor
        · have hsum := hgood.1
          simp only [entrySum, List.map_append, List.sum_append, List.map_cons,
            List.map_nil, List.sum_cons, List.sum_nil] at hsum ⊢
          omega
        · have := hgood.2
          dsimp only
          omega
      · dsimp only
        unfold calculateAllowanceTopUp at htp ⊢
        omega
    · rw [ensureAllowance_topup_zero cfg today u w a ha hd htp]
      exact ⟨_, l, alookup_aset_self _ _ _, hl, hsync, hgood, hcap⟩
  · rw [ensureAllowance_same_day cfg today u w a ha hd]
    exact ⟨a, l, ha, hl, hsync, hgood, hcap⟩

theorem replenishMany_inv {cfg : TokensConfig} {u : String} {w : AllowanceWorld}
    (days : List Int) (h : AllowanceInv cfg u w) :
    AllowanceInv cfg u (replenishMany cfg u w days) := by
  induction days generalizing w with
  | nil => exact h
  | cons d rest ih => exact ih (replenish_inv d h)

/-- **C5.** Lazy replenishment credits exactly
`min(daysElapsed × dailyGrant, max(0, maxAllowance − tokensRemaining))`:
when the top-up is positive the ledger gains exactly that one
`DAILY_ALLOWANCE` entry, when it is zero no ledger write happens, and in
both cases the stored `lastResetDate` advances to today; and iterated
replenishment, over any sequence of days, never pushes the allowance
counter above `maxAllowance`. -/
theorem allowance_replenishment_cap (cfg : TokensConfig) (u : String) (w : AllowanceWorld)
    (a : AllowanceRec) (l : Ledger) (today : Int)
    (ha : alookup w.allowance u = some a)
    (hl : alookup w.tokens u = some l)
    (hsync : a.tokensRemaining = l.cachedBalance)
    (hgood : LedgerGood l)
    (hcap : a.tokensRemaining ≤ cfg.maxAllowance)
    (hd : 0 < today - a.lastResetDate) :
    calculateAllowanceTopUp cfg a.tokensRemaining (today - a.lastResetDate) =
      min ((today - a.lastResetDate) * cfg.dailyAllowance)
        (max 0 (cfg.maxAllowance - a.tokensRemaining))
    ∧ (∀ w' st, ensureAllowance cfg today u w = .ok (w', st) →
        ∃ a' l', alookup w'.allowance u = some a' ∧ alookup w'.tokens u = some l' ∧
          a'.lastResetDate = today ∧
          a'.tokensRemaining = l'.cachedBalance ∧
          a'.tokensRemaining ≤ cfg.maxAllowance ∧
          l'.entries = l.entries ++
            (if 0 < calculateAllowanceTopUp cfg a.tokensRemaining (today - a.lastResetDate)
             then [{ userId := u,
                     amount := calculateAllowanceTopUp cfg a.tokensRemaining
                       (today - a.lastResetDate),
                     type := "DAILY_ALLOWANCE", referenceId := none,
                     balanceAfter := l.cachedBalance +
                       calculateAllowanceTopUp cfg a.tokensRemaining
                         (today - a.lastResetDate) }]
             else []))
    ∧ (∀ days a'', alookup (replenishMany cfg u w days).allowance u = some a'' →
        a''.tokensRemaining ≤ cfg.maxAllowance) := by
  refine ⟨rfl, ?_, ?_⟩
  · intro w' st hrun
    by_cases htp : 0 < calculateAllowanceTopUp cfg a.tokensRemaining (today - a.lastResetDate)
    · rw [ensureAllowance_topup_pos cfg today u w a l ha hl hgood.2 hd htp] at hrun
      cases hrun
      refine ⟨_, _, alookup_aset_self _ _ _, alookup_aset_self _ _ _, rfl, rfl, ?_, ?_⟩
      · dsimp only
        unfold calculateAllowanceTopUp at htp ⊢
        omega
      · dsimp only
        rw [if_pos htp]
    · rw [ensureAllowance_topup_zero cfg today u w a ha hd htp] at hrun
      cases hrun
      refine ⟨_, l, alookup_aset_self _ _ _, hl, rfl, hsync, hcap, ?_⟩
      dsimp only
      rw [if_neg htp, List.append_nil]
  · intro days a'' ha''
    have hinv : AllowanceInv cfg u (replenishMany cfg u w days) :=
      replenishMany_inv days ⟨a, l, ha, hl, hsync, hgood, hcap⟩
    obtain ⟨a', l', ha', hl', hsync', hgood', hcap'⟩ := hinv
    rw [ha'] at ha''
    cases ha''
    exact hcap'

/-- Concrete state for the C5 witness: `ann` with a healthy ledger
(balance 10 = sum of one `DAILY_ALLOWANCE` entry) and an in-sync
allowance row last reset on day 100. -/
def annGrantLedger : Ledger :=
  { cachedBalance := 10,
    entries := [{ userId := "ann", amount := 10, type := "DAILY_ALLOWANCE",
                  referenceId := none, balanceAfter := 10 }] }

def annSyncWorld : AllowanceWorld :=
  { tokens := [("ann", annGrantLedger)],
    allowance := [("ann", { tokensRemaining := 10, lastResetDate := 100 })] }

theorem allowance_replenishment_cap_witness :
    alookup annSyncWorld.allowance "ann" =
      some { tokensRemaining := 10, lastResetDate := 100 } ∧
    0 < (103:Int) - 100 ∧
    (∀ days a'',
        alookup (replenishMany { dailyAllowance := 5, maxAllowance := 35 } "ann"
          annSyncWorld days).allowance "ann" = some a'' →
        a''.tokensRemaining ≤ (35:Int)) :=
  ⟨by decide, by decide,
   (allowance_replenishment_cap { dailyAllowance := 5, maxAllowance := 35 } "ann"
     annSyncWorld
     { tokensRemaining := 10, lastResetDate := 100 }
     annGrantLedger
     103
     (by decide) (by decide) (by decide) (by decide) (by decide) (by decide)).2.2⟩

/-! ## Rational arithmetic helpers

JS `number` odds (decimal prices, multipliers, margins) are modelled as
`ℚ`.  Batteries marks `Rat.mul` / `Rat.inv` / `Rat.add` `@[irreducible]`,
so the model computes products and quotients through `mkRat` / `divInt`
(kernel-reducible) and the lemmas below identify them with `*` and `/`
on `ℚ`; `Rat.floor` is the `Math.floor` of a rational. -/

def ratMul (a b : Rat) : Rat := mkRat (a.num * b.num) (a.den * b.den)

def ratDiv (a b : Rat) : Rat := Rat.divInt (a.num * b.den) (a.den * b.num)

theorem ratFloor_eq (q : ℚ) : q.floor = ⌊q⌋ := by
  rw [Rat.floor_def', ← Rat.floor_def]

theorem ratMul_eq (a b : ℚ) : ratMul a b = a * b := by
  rw [ratMul, Rat.mkRat_eq_div]
  push_cast
  conv_rhs => rw [← Rat.num_div_den a, ← Rat.num_div_den b]
  rw [div_mul_div_comm]

theorem ratDiv_eq (a b : ℚ) : ratDiv a b = a / b := by
  rw [ratDiv, Rat.divInt_eq_div]
  rcases eq_or_ne b 0 with hb | hb
  · subst hb
    simp
  · have hbn : (b.num : ℚ) ≠ 0 := by
      simpa using Rat.num_ne_zero.mpr hb
    have had : (a.den : ℚ) ≠ 0 := by
      exact_mod_cast a.den_nz
    have hbd : (b.den : ℚ) ≠ 0 := by
      exact_mod_cast b.den_nz
    conv_rhs => rw [← Rat.num_div_den a, ← Rat.num_div_den b]
    field_simp

/-! ## Events, settlement, cancellation (`src/services/events.ts`)

`settle` in `events.ts` runs in two phases: a *read* phase outside any
transaction (fetch the event with its PENDING predictions, check the
terminal statuses, validate the outcome — with **no** row lock), and a
*commit* phase `prisma.$transaction(...)` that pays winners, marks
losers, and marks the event SETTLED, driven entirely by the snapshot
taken in the read phase.  The model keeps the two phases separate so
that interleavings of concurrent calls can be expressed; the sequential
`settle` is their composition. -/

inductive EventStatus where
  | OPEN
  | LOCKED
  | SETTLED
  | CANCELLED
  deriving Repr, DecidableEq

inductive PredStatus where
  | PENDING
  | WON
  | LOST
  | REFUNDED
  | CASHED_OUT
  deriving Repr, DecidableEq

structure Pred where
  id : String
  userId : String
  predictedOutcome : String
  stakeAmount : Int
  originalOdds : Option Rat
  status : PredStatus
  payout : Option Int := none
  deriving Repr, DecidableEq

structure Event where
  status : EventStatus
  outcomes : List String
  payoutMultiplier : Rat
  finalOutcome : Option String := none
  settledBy : Option String := none
  deriving Repr, DecidableEq

structure EventWorld where
  event : Event
  predictions : List Pred
  points : LedgerStore
  tokens : LedgerStore
  deriving Repr, DecidableEq

/-- `calculatePayout` from `events.ts`: `Math.floor(stakeAmount * odds)`. -/
def calculatePayout (stakeAmount : Int) (odds : Rat) : Int :=
  (ratMul (stakeAmount : ℚ) odds).floor

theorem calculatePayout_eq_floor (s : Int) (odds : ℚ) :
    calculatePayout s odds = ⌊(s : ℚ) * odds⌋ := by
  rw [calculatePayout, ratMul_eq, ratFloor_eq]

structure SettleSnapshot where
  pending : List Pred
  payoutMultiplier : Rat
  deriving Repr, DecidableEq

structure SettlementResult where
  finalOutcome : String
  totalPredictions : Nat
  winners : Nat
  losers : Nat
  totalPayout : Int
  deriving Repr, DecidableEq

/-- The read phase of `settle`: performed *before* the transaction and
without any lock. -/
def settleRead (w : EventWorld) (finalOutcome : String) : Except Err SettleSnapshot :=
  if w.event.status = .SETTLED then .error .eventAlreadySettled
  else if w.event.status = .CANCELLED then .error .eventAlreadySettled
  else if finalOutcome ∈ w.event.outcomes then
    .ok { pending := w.predictions.filter (fun p => p.status = .PENDING),
          payoutMultiplier := w.event.payoutMultiplier }
  else .error .invalidOutcome

def updatePred (ps : List Pred) (id : String) (st : PredStatus) (po : Option Int) :
    List Pred :=
  ps.map (fun q => if q.id = id then { q with status := st, payout := po } else q)

/-- The per-prediction loop inside `settle`'s transaction: winners are
credited on the points ledger (`PREDICTION_WIN`, reference the
prediction) and marked WON with their payout, losers marked LOST with
payout 0. -/
def processPreds (fo : String) (mult : Rat) :
    List Pred → EventWorld → Nat → Nat → Int → Except Err (EventWorld × Nat × Nat × Int)
  | [], w, winners, losers, totalPayout => .ok (w, winners, losers, totalPayout)
  | p :: rest, w, winners, losers, totalPayout =>
    if p.predictedOutcome = fo then
      let payout := calculatePayout p.stakeAmount (p.originalOdds.getD mult)
      match credit w.points
          { userId := p.userId, amount := payout, type := "PREDICTION_WIN",
            referenceId := some p.id } with
      | .error err => .error err
      | .ok (points', _) =>
        processPreds fo mult rest
          { w with points := points',
                   predictions := updatePred w.predictions p.id .WON (some payout) }
          (winners + 1) losers (totalPayout + payout)
    else
      processPreds fo mult rest
        { w with predictions := updatePred w.predictions p.id .LOST (some 0) }
        winners (losers + 1) totalPayout

/-- The commit phase of `settle` (the `prisma.$transaction` body). -/
def settleCommit (w : EventWorld) (snap : SettleSnapshot) (finalOutcome settledBy : String) :
    Except Err (EventWorld × SettlementResult) :=
  match processPreds finalOutcome snap.payoutMultiplier snap.pending w 0 0 0 with
  | .error err => .error err
  | .ok (w1, winners, losers, totalPayout) =>
    let ev : Event :=
      { w1.event with status := .SETTLED, finalOutcome := some finalOutcome,
                      settledBy := some settledBy }
    .ok ({ w1 with event := ev },
         { finalOutcome := finalOutcome, totalPredictions := snap.pending.length,
           winners := winners, losers := losers, totalPayout := totalPayout })

/-- `EventService.settle`, as executed without interference: the read
phase followed by the commit phase. -/
def settle (w : EventWorld) (finalOutcome settledBy : String) :
    Except Err (EventWorld × SettlementResult) :=
  match settleRead w finalOutcome with
  | .error err => .error err
  | .ok snap => settleCommit w snap finalOutcome settledBy

/-- `EventService.cancel`: the pre-transaction read (same terminal-status
guard, both errors carry code `EVENT_ALREADY_SETTLED`). -/
def cancelRead (w : EventWorld) : Except Err (List Pred) :=
  if w.event.status = .SETTLED then .error .eventAlreadySettled
  else if w.event.status = .CANCELLED then .error .eventAlreadySettled
  else .ok (w.predictions.filter (fun p => p.status = .PENDING))

def updatePredStatus (ps : List Pred) (id : String) (st : PredStatus) : List Pred :=
  ps.map (fun q => if q.id = id then { q with status := st } else q)

def refundPreds : List Pred → EventWorld → Nat → Except Err (EventWorld × Nat)
  | [], w, refunded => .ok (w, refunded)
  | p :: rest, w, refunded =>
    match credit w.tokens
        { userId := p.userId, amount := p.stakeAmount, type := "PREDICTION_REFUND",
          referenceId := some p.id } with
    | .error err => .error err
    | .ok (tokens', _) =>
      refundPreds rest
        { w with tokens := tokens',
                 predictions := updatePredStatus w.predictions p.id .REFUNDED }
        (refunded + 1)

def cancel (w : EventWorld) (cancelledBy : String) : Except Err (EventWorld × Nat) :=
  match cancelRead w with
  | .error err => .error err
  | .ok pend =>
    match refundPreds pend w 0 with
    | .error err => .error err
    | .ok (w1, refunded) =>
      let ev : Event :=
        { w1.event with status := .CANCELLED, settledBy := some cancelledBy }
      .ok ({ w1 with event := ev }, refunded)

/-- The expected resolution of a single prediction row by a settlement
with final outcome `fo` (event default multiplier `mult`): a PENDING
prediction whose choice matches wins `floor(stake × odds)` with the
captured odds (falling back to the multiplier), any other PENDING
prediction loses with payout 0, and rows not PENDING are untouched. -/
def resolvePred (fo : String) (mult : Rat) (p : Pred) : Pred :=
  if p.status = .PENDING then
    if p.predictedOutcome = fo then
      { p with status := .WON,
               payout := some (calculatePayout p.stakeAmount (p.originalOdds.getD mult)) }
    else { p with status := .LOST, payout := some 0 }
  else p

def pointsEntriesOf (w : EventWorld) (u : String) : List LedgerEntry :=
  match alookup w.points u with
  | some l => l.entries
  | none => []

/-- The observable data of a ledger entry (amount, kind, reference). -/
def entryData (e : LedgerEntry) : Int × String × Option String :=
  (e.amount, e.type, e.referenceId)

/-- The win credits a settlement pass over `pend` owes to user `u`. -/
def winCreditsData (fo : String) (mult : Rat) (u : String) (pend : List Pred) :
    List (Int × String × Option String) :=
  (pend.filter (fun p => p.predictedOutcome = fo ∧ p.userId = u)).map
    (fun p => (calculatePayout p.stakeAmount (p.originalOdds.getD mult),
               "PREDICTION_WIN", some p.id))

theorem updatePred_id_map (ps : List Pred) (i : String) (st : PredStatus)
    (po : Option Int) : (updatePred ps i st po).map Pred.id = ps.map Pred.id := by
  induction ps with
  | nil => rfl
  | cons q rest ih =>
    by_cases hq : q.id = i
    · simp [updatePred, hq] at ih ⊢
      exact ih
    · simp [updatePred, hq] at ih ⊢
      exact ih

theorem mem_updatePred_of_ne {ps : List Pred} {x : Pred} {i : String}
    {st : PredStatus} {po : Option Int} (hx : x ∈ ps) (hne : x.id ≠ i) :
    x ∈ updatePred ps i st po :=
  List.mem_map.mpr ⟨x, hx, by rw [if_neg hne]⟩

theorem credit_ok_inv {s s' : LedgerStore} {e : EntryInput} {r : ChangeResult}
    (h : credit s e = .ok (s', r)) :
    ∃ l, alookup s e.userId = some l ∧
      s' = aset s e.userId
        { cachedBalance := l.cachedBalance + e.amount,
          entries := l.entries ++
            [{ userId := e.userId, amount := e.amount, type := e.type,
               referenceId := e.referenceId,
               balanceAfter := l.cachedBalance + e.amount }] } := by
  unfold credit at h
  split_ifs at h with h1 h2
  unfold executeAtomicChange at h
  split at h
  · exact absurd h (by simp)
  next l hl =>
    split at h
    · exact absurd h (by simp)
    next hneg =>
      cases h
      exact ⟨l, hl, rfl⟩

theorem processPreds_spec (fo : String) (mult : Rat) :
    ∀ (snap : List Pred) (w : EventWorld) (wn ls : Nat) (tp : Int)
      (w' : EventWorld) (wn' ls' : Nat) (tp' : Int),
      (∀ p ∈ snap, p.status = .PENDING ∧ p ∈ w.predictions) →
      (w.predictions.map Pred.id).Nodup →
      (snap.map Pred.id).Nodup →
      processPreds fo mult snap w wn ls tp = .ok (w', wn', ls', tp') →
      w'.predictions = w.predictions.map
        (fun q => if q.id ∈ snap.map Pred.id then resolvePred fo mult q else q)
      ∧ wn' = wn + (snap.filter (fun p => p.predictedOutcome = fo)).length
      ∧ ls' = ls + (snap.filter (fun p => ¬ p.predictedOutcome = fo)).length
      ∧ tp' = tp + ((snap.filter (fun p => p.predictedOutcome = fo)).map
          (fun p => calculatePayout p.stakeAmount (p.originalOdds.getD mult))).sum
      ∧ (∀ u, (pointsEntriesOf w' u).map entryData =
          (pointsEntriesOf w u).map entryData ++ winCreditsData fo mult u snap)
      ∧ w'.event = w.event ∧ w'.tokens = w.tokens := by
  intro snap
  induction snap with
  | nil =>
    intro w wn ls tp w' wn' ls' tp' hsnap hw hsn hrun
    unfold processPreds at hrun
    cases hrun
    refine ⟨by simp, by simp, by simp, by simp, ?_, rfl, rfl⟩
    intro u
    simp [winCreditsData]
  | cons p rest ih =>
    intro w wn ls tp w' wn' ls' tp' hsnap hw hsn hrun
    have hpmem := hsnap p (List.mem_cons_self _ _)
    have hpid : p.id ∉ rest.map Pred.id := by
      have h1 := (List.nodup_cons.mp hsn).1
      simpa using h1
    have hsnrest : (rest.map Pred.id).Nodup := (List.nodup_cons.mp hsn).2
    have hinj : ∀ x ∈ w.predictions, ∀ y ∈ w.predictions, x.id = y.id → x = y := by
      intro x hx y hy hxy
      exact List.inj_on_of_nodup_map hw hx hy hxy
    have hrestne : ∀ x ∈ rest, x.id ≠ p.id := by
      intro x hx hcontra
      exact hpid (List.mem_map.mpr ⟨x, hx, hcontra⟩)
    simp only [processPreds] at hrun
    by_cases hwin : p.predictedOutcome = fo
    · rw [if_pos hwin] at hrun
      cases hcred : credit w.points
          { userId := p.userId,
            amount := calculatePayout p.stakeAmount (p.originalOdds.getD mult),
            type := "PREDICTION_WIN", referenceId := some p.id } with
      | error err =>
        rw [hcred] at hrun
        exact absurd hrun (by simp)
      | ok pr =>
        obtain ⟨points', r⟩ := pr
        rw [hcred] at hrun
        dsimp only at hrun
        have hrun' : processPreds fo mult rest
            { w with points := points',
                     predictions := updatePred w.predictions p.id .WON
                       (some (calculatePayout p.stakeAmount (p.originalOdds.getD mult))) }
            (wn + 1) ls
            (tp + calculatePayout p.stakeAmount (p.originalOdds.getD mult)) =
            .ok (w', wn', ls', tp') := hrun
        obtain ⟨hpred, hwn, hls, htp, hpts, hev, htk⟩ :=
          ih { w with points := points',
                      predictions := updatePred w.predictions p.id .WON
                        (some (calculatePayout p.stakeAmount (p.originalOdds.getD mult))) }
            (wn + 1) ls
            (tp + calculatePayout p.stakeAmount (p.originalOdds.getD mult))
            w' wn' ls' tp'
            (by
              intro x hx
              refine ⟨(hsnap x (List.mem_cons_of_mem _ hx)).1, ?_⟩
              exact mem_updatePred_of_ne (hsnap x (List.mem_cons_of_mem _ hx)).2
                (hrestne x hx))
            (by
              show ((updatePred w.predictions p.id .WON _).map Pred.id).Nodup
              rw [updatePred_id_map]
              exact hw)
            hsnrest hrun'
        obtain ⟨l0, hl0, hset⟩ := credit_ok_inv hcred
        dsimp only at hl0 hset
        refine ⟨?_, ?_, ?_, ?_, ?_, hev, htk⟩
        · rw [hpred]
          show (updatePred w.predictions p.id .WON _).map _ = _
          rw [updatePred, List.map_map]
          refine List.map_congr_left ?_
          intro q hq
          by_cases hqid : q.id = p.id
          · have hqp : q = p := hinj q hq p hpmem.2 hqid
            subst hqp
            simp [resolvePred, hpmem.1, hwin, hpid]
          · simp only [Function.comp_apply, if_neg hqid, List.map_cons]
            by_cases hqr : q.id ∈ rest.map Pred.id
            · rw [if_pos hqr, if_pos (by simp [hqr])]
            · rw [if_neg hqr, if_neg (by simp [hqid, hqr])]
        · rw [hwn]
          simp [List.filter_cons, hwin]
          omega
        · rw [hls]
          simp [List.filter_cons, hwin]
        · rw [htp]
          simp [List.filter_cons, hwin]
          omega
        · intro u
          rw [hpts u]
          have hhead : (pointsEntriesOf
              { w with points := points',
                       predictions := updatePred w.predictions p.id .WON
                         (some (calculatePayout p.stakeAmount (p.originalOdds.getD mult))) }
              u).map entryData =
              (pointsEntriesOf w u).map entryData ++
                (if p.userId = u then
                  [(calculatePayout p.stakeAmount (p.originalOdds.getD mult),
                    "PREDICTION_WIN", (some p.id : Option String))]
                 else []) := by
            show ((match alookup points' u with
                   | some l => l.entries
                   | none => []).map entryData) = _
            rw [hset]
            by_cases hu : u = p.userId
            · subst hu
              rw [alookup_aset_self]
              dsimp only
              rw [pointsEntriesOf, hl0]
              simp [entryData]
            · rw [alookup_aset_of_ne _ _ _ _ hu]
              rw [if_neg (fun hh => hu (Eq.symm hh)), List.append_nil]
              rfl
          rw [hhead]
          have hwcd : winCreditsData fo mult u (p :: rest) =
              (if p.userId = u then
                [(calculatePayout p.stakeAmount (p.originalOdds.getD mult),
                  "PREDICTION_WIN", (some p.id : Option String))]
               else []) ++ winCreditsData fo mult u rest := by
            rw [winCreditsData, winCreditsData]
            by_cases hu : p.userId = u
            · rw [List.filter_cons_of_pos (by simp [hwin, hu])]
              simp [hu]
            · rw [List.filter_cons_of_neg (by simp [hwin, hu])]
              simp [hu]
          rw [hwcd, List.append_assoc]
    · rw [if_neg hwin] at hrun
      have hrun' : processPreds fo mult rest
          { w with predictions := updatePred w.predictions p.id .LOST (some 0) }
          wn (ls + 1) tp = .ok (w', wn', ls', tp') := hrun
      obtain ⟨hpred, hwn, hls, htp, hpts, hev, htk⟩ :=
        ih { w with predictions := updatePred w.predictions p.id .LOST (some 0) }
          wn (ls + 1) tp w' wn' ls' tp'
          (by
            intro x hx
            refine ⟨(hsnap x (List.mem_cons_of_mem _ hx)).1, ?_⟩
            exact mem_updatePred_of_ne (hsnap x (List.mem_cons_of_mem _ hx)).2
              (hrestne x hx))
          (by
            show ((updatePred w.predictions p.id .LOST _).map Pred.id).Nodup
            rw [updatePred_id_map]
            exact hw)
          hsnrest hrun'
      refine ⟨?_, ?_, ?_, ?_, ?_, hev, htk⟩
      · rw [hpred]
        show (updatePred w.predictions p.id .LOST _).map _ = _
        rw [updatePred, List.map_map]
        refine List.map_congr_left ?_
        intro q hq
        by_cases hqid : q.id = p.id
        · have hqp : q = p := hinj q hq p hpmem.2 hqid
          subst hqp
          simp [resolvePred, hpmem.1, hwin, hpid]
        · simp only [Function.comp_apply, if_neg hqid, List.map_cons]
          by_cases hqr : q.id ∈ rest.map Pred.id
          · rw [if_pos hqr, if_pos (by simp [hqr])]
          · rw [if_neg hqr, if_neg (by simp [hqid, hqr])]
      · rw [hwn]
        simp [List.filter_cons, hwin]
      · rw [hls]
        simp [List.filter_cons, hwin]
        omega
      · rw [htp]
        simp [List.filter_cons, hwin]
      · intro u
        rw [hpts u]
        have hwcd : winCreditsData fo mult u (p :: rest) = winCreditsData fo mult u rest := by
          rw [winCreditsData, winCreditsData]
          rw [List.filter_cons_of_neg (by simp [hwin])]
        rw [hwcd]
        rfl

/-- **C2.** When `settle(eventId, finalOutcome, settledBy)` succeeds,
every prediction that was PENDING when settlement ran is resolved
exactly once — matching predictions are marked WON with payout
`calculatePayout stake odds` (odds = captured `originalOdds`, falling
back to the event's `payoutMultiplier`) and their user's points ledger
is credited exactly that payout with kind `PREDICTION_WIN` referencing
the prediction; every other PENDING prediction is marked LOST with
payout 0; non-PENDING rows are untouched.  `calculatePayout` is
`⌊stake × odds⌋`, so `calculatePayout 3 1.5 = 4` and
`calculatePayout 0 x = 0` for every odds `x`. -/
theorem settle_resolves_pending_predictions (w : EventWorld) (fo sb : String)
    (w' : EventWorld) (r : SettlementResult)
    (hids : (w.predictions.map Pred.id).Nodup)
    (hrun : settle w fo sb = .ok (w', r)) :
    w'.predictions = w.predictions.map (resolvePred fo w.event.payoutMultiplier)
    ∧ (∀ u, (pointsEntriesOf w' u).map entryData =
        (pointsEntriesOf w u).map entryData ++
          winCreditsData fo w.event.payoutMultiplier u
            (w.predictions.filter (fun p => p.status = .PENDING)))
    ∧ w'.event.status = .SETTLED ∧ w'.event.finalOutcome = some fo
    ∧ w'.tokens = w.tokens
    ∧ (∀ s odds, calculatePayout s odds = ⌊(s : ℚ) * odds⌋)
    ∧ calculatePayout 3 (mkRat 3 2) = 4
    ∧ (∀ odds, calculatePayout 0 odds = 0) := by
  unfold settle settleRead at hrun
  split_ifs at hrun with h1 h2 h3
  dsimp only at hrun
  unfold settleCommit at hrun
  cases hproc : processPreds fo w.event.payoutMultiplier
      (w.predictions.filter (fun p => p.status = .PENDING)) w 0 0 0 with
  | error e =>
    rw [hproc] at hrun
    exact absurd hrun (by simp)
  | ok q =>
    obtain ⟨w1, wn, ls, tp⟩ := q
    rw [hproc] at hrun
    dsimp only at hrun
    cases hrun
    have hsnap : ∀ p ∈ w.predictions.filter (fun p => p.status = .PENDING),
        p.status = .PENDING ∧ p ∈ w.predictions := by
      intro p hp
      have := List.mem_filter.mp hp
      exact ⟨by simpa using this.2, this.1⟩
    have hsn : ((w.predictions.filter (fun p => p.status = .PENDING)).map Pred.id).Nodup :=
      hids.sublist (List.Sublist.map _ (List.filter_sublist _))
    obtain ⟨hpred, hwn, hls, htp, hpts, hev, htk⟩ :=
      processPreds_spec fo w.event.payoutMultiplier
        (w.predictions.filter (fun p => p.status = .PENDING)) w 0 0 0
        w1 wn ls tp hsnap hids hsn hproc
    have hinj : ∀ x ∈ w.predictions, ∀ y ∈ w.predictions, x.id = y.id → x = y := by
      intro x hx y hy hxy
      exact List.inj_on_of_nodup_map hids hx hy hxy
    refine ⟨?_, ?_, rfl, rfl, htk, calculatePayout_eq_floor, by decide, ?_⟩
    · show w1.predictions = _
      rw [hpred]
      refine List.map_congr_left ?_
      intro q hq
      by_cases hpend : q.status = .PENDING
      · have hqin : q.id ∈ (w.predictions.filter
            (fun p => p.status = .PENDING)).map Pred.id :=
          List.mem_map.mpr ⟨q, List.mem_filter.mpr ⟨hq, by simpa using hpend⟩, rfl⟩
        rw [if_pos hqin]
      · have hqout : q.id ∉ (w.predictions.filter
            (fun p => p.status = .PENDING)).map Pred.id := by
          intro hcontra
          obtain ⟨x, hx, hxid⟩ := List.mem_map.mp hcontra
          have hxm := List.mem_filter.mp hx
          have hxq : x = q := hinj x hxm.1 q hq hxid
          subst hxq
          exact hpend (by simpa using hxm.2)
        rw [if_neg hqout, resolvePred, if_neg hpend]
    · intro u
      exact hpts u
    · intro odds
      rw [calculatePayout_eq_floor]
      simp

/-- Concrete world for the C2/C6 witnesses: a LOCKED event with outcomes
`A`/`B`, multiplier 2, and one pending prediction on `A` staking 5 with
no captured odds (payout `⌊5 × 2⌋ = 10`). -/
def wC2 : EventWorld :=
  { event := { status := .LOCKED, outcomes := ["A", "B"], payoutMultiplier := mkRat 2 1 },
    predictions := [{ id := "p1", userId := "u", predictedOutcome := "A",
                      stakeAmount := 5, originalOdds := none, status := .PENDING }],
    points := [("u", { cachedBalance := 0, entries := [] })],
    tokens := [] }

def wC2after : EventWorld :=
  { event := { status := .SETTLED, outcomes := ["A", "B"], payoutMultiplier := mkRat 2 1,
               finalOutcome := some "A", settledBy := some "sys" },
    predictions := [{ id := "p1", userId := "u", predictedOutcome := "A",
                      stakeAmount := 5, originalOdds := none, status := .WON,
                      payout := some 10 }],
    points := [("u", { cachedBalance := 10,
                       entries := [{ userId := "u", amount := 10, type := "PREDICTION_WIN",
                                     referenceId := some "p1", balanceAfter := 10 }] })],
    tokens := [] }

def rC2 : SettlementResult :=
  { finalOutcome := "A", totalPredictions := 1, winners := 1, losers := 0, totalPayout := 10 }

theorem settle_resolves_pending_predictions_witness :
    ((wC2.predictions.map Pred.id).Nodup ∧ settle wC2 "A" "sys" = .ok (wC2after, rC2)) ∧
    (wC2after.predictions = wC2.predictions.map (resolvePred "A" wC2.event.payoutMultiplier)
     ∧ (∀ u, (pointsEntriesOf wC2after u).map entryData =
         (pointsEntriesOf wC2 u).map entryData ++
           winCreditsData "A" wC2.event.payoutMultiplier u
             (wC2.predictions.filter (fun p => p.status = .PENDING)))
     ∧ wC2after.event.status = .SETTLED ∧ wC2after.event.finalOutcome = some "A"
     ∧ wC2after.tokens = wC2.tokens
     ∧ (∀ s odds, calculatePayout s odds = ⌊(s : ℚ) * odds⌋)
     ∧ calculatePayout 3 (mkRat 3 2) = 4
     ∧ (∀ odds, calculatePayout 0 odds = 0)) :=
  ⟨⟨by decide, by decide⟩,
   settle_resolves_pending_predictions wC2 "A" "sys" wC2after rC2 (by decide) (by decide)⟩

/-! ## The settlement worker's per-event error handling
(`src/services/settlementWorker.ts`, `runOnce`) -/

structure RunAcc where
  settledEvents : Nat
  failedEvents : Nat
  errors : List (String × Err)
  deriving Repr, DecidableEq

/-- The worker's per-event `try { settle } catch` block: success counts
as settled; an `EVENT_ALREADY_SETTLED` error is skipped (`continue`)
with nothing recorded; any other error is recorded per event. -/
def workerHandleSettleResult (eventId : String)
    (res : Except Err (EventWorld × SettlementResult)) (acc : RunAcc) : RunAcc :=
  match res with
  | .ok _ => { acc with settledEvents := acc.settledEvents + 1 }
  | .error e =>
    if e = .eventAlreadySettled then acc
    else { acc with failedEvents := acc.failedEvents + 1,
                    errors := acc.errors ++ [(eventId, e)] }

/-- **C6.** After a successful `settle`, the event is SETTLED: any
further `settle` (with any outcome) and any `cancel` fail with
`EventAlreadySettled`, so settling twice succeeds exactly once; and the
settlement worker treats an `EVENT_ALREADY_SETTLED` error as a benign
no-op — its per-run counters and error list are left untouched rather
than recording a per-event failure. -/
theorem settle_twice_rejected_worker_noop (w w' : EventWorld) (r : SettlementResult)
    (fo sb : String) (hrun : settle w fo sb = .ok (w', r)) :
    (∀ fo2 sb2, settle w' fo2 sb2 = .error .eventAlreadySettled)
    ∧ (∀ cb, cancel w' cb = .error .eventAlreadySettled)
    ∧ (∀ eid fo2 sb2 acc, workerHandleSettleResult eid (settle w' fo2 sb2) acc = acc) := by
  have hst : w'.event.status = .SETTLED := by
    unfold settle at hrun
    cases hread : settleRead w fo with
    | error e =>
      rw [hread] at hrun
      exact absurd hrun (by simp)
    | ok snap =>
      rw [hread] at hrun
      dsimp only at hrun
      unfold settleCommit at hrun
      cases hproc : processPreds fo snap.payoutMultiplier snap.pending w 0 0 0 with
      | error e =>
        rw [hproc] at hrun
        exact absurd hrun (by simp)
      | ok q =>
        obtain ⟨w1, a, b, c⟩ := q
        rw [hproc] at hrun
        dsimp only at hrun
        cases hrun
        rfl
  have hsettle2 : ∀ fo2 sb2, settle w' fo2 sb2 = .error .eventAlreadySettled := by
    intro fo2 sb2
    simp [settle, settleRead, hst]
  refine ⟨hsettle2, ?_, ?_⟩
  · intro cb
    simp [cancel, cancelRead, hst]
  · intro eid fo2 sb2 acc
    rw [hsettle2 fo2 sb2]
    rfl

theorem settle_twice_rejected_worker_noop_witness :
    settle wC2 "A" "sys" = .ok (wC2after, rC2) ∧
    ((∀ fo2 sb2, settle wC2after fo2 sb2 = .error .eventAlreadySettled)
     ∧ (∀ cb, cancel wC2after cb = .error .eventAlreadySettled)
     ∧ (∀ eid fo2 sb2 acc,
          workerHandleSettleResult eid (settle wC2after fo2 sb2) acc = acc)) :=
  ⟨by decide,
   settle_twice_rejected_worker_noop wC2 wC2after rC2 "A" "sys" (by decide)⟩

/-! ## C3: the status check of `settle` runs outside the transaction

In `src/services/events.ts` the event fetch, the SETTLED/CANCELLED
check, and the PENDING-prediction fetch all happen *before*
`prisma.$transaction` opens, with a plain `findUnique` — no `FOR UPDATE`
lock — and the transaction body then pays out from that stale snapshot.
(`src/fixes_for_codex/events-settle-fix.ts` is the repository's own
patch moving the check inside the transaction under `FOR UPDATE`.)
Two concurrent `settle` calls therefore interleave as
`read₁, read₂, commit₁, commit₂`: both reads see a LOCKED event and
both commits succeed, crediting the winner twice.  The definitions
below instantiate that schedule at a concrete input. -/

def racePred : Pred :=
  { id := "p1", userId := "v", predictedOutcome := "A",
    stakeAmount := 5, originalOdds := none, status := .PENDING }

def raceWorld : EventWorld :=
  { event := { status := .LOCKED, outcomes := ["A", "B"], payoutMultiplier := mkRat 2 1 },
    predictions := [racePred],
    points := [("v", { cachedBalance := 0, entries := [] })],
    tokens := [] }

def raceSnap : SettleSnapshot :=
  { pending := [racePred], payoutMultiplier := mkRat 2 1 }

def raceWinEntry (bal : Int) : LedgerEntry :=
  { userId := "v", amount := 10, type := "PREDICTION_WIN",
    referenceId := some "p1", balanceAfter := bal }

def raceAfterFirst : EventWorld :=
  { event := { status := .SETTLED, outcomes := ["A", "B"], payoutMultiplier := mkRat 2 1,
               finalOutcome := some "A", settledBy := some "admin" },
    predictions := [{ racePred with status := .WON, payout := some 10 }],
    points := [("v", { cachedBalance := 10, entries := [raceWinEntry 10] })],
    tokens := [] }

def raceAfterSecond : EventWorld :=
  { event := { status := .SETTLED, outcomes := ["A", "B"], payoutMultiplier := mkRat 2 1,
               finalOutcome := some "A", settledBy := some "system" },
    predictions := [{ racePred with status := .WON, payout := some 10 }],
    points := [("v", { cachedBalance := 20,
                       entries := [raceWinEntry 10, raceWinEntry 20] })],
    tokens := [] }

def raceResult : SettlementResult :=
  { finalOutcome := "A", totalPredictions := 1, winners := 1, losers := 0, totalPayout := 10 }

/-- **C3.** The claim is false of `events.ts` as shipped: the
read/verify phase runs before the transaction with no exclusive lock,
so in the interleaving `read₁, read₂, commit₁, commit₂` of two
concurrent `settle` calls on the same LOCKED event both reads pass the
terminal-status check against the same initial state, both commits
succeed, and the winner's points ledger is credited twice (balance 20
after a single 10-point win) — double settlement.  The last conjunct
shows what the in-transaction re-check of the repository's fix file
enforces: a read that happens after the first commit is rejected with
`EventAlreadySettled`. -/
theorem settle_status_check_outside_transaction :
    settleRead raceWorld "A" = .ok raceSnap
    ∧ settleCommit raceWorld raceSnap "A" "admin" = .ok (raceAfterFirst, raceResult)
    ∧ settleCommit raceAfterFirst raceSnap "A" "system" = .ok (raceAfterSecond, raceResult)
    ∧ alookup raceAfterSecond.points "v" =
        some { cachedBalance := 20, entries := [raceWinEntry 10, raceWinEntry 20] }
    ∧ settle raceAfterFirst "A" "system" = .error .eventAlreadySettled := by
  refine ⟨by decide, by decide, by decide, by decide, by decide⟩

/-! ## Cashout valuation (`src/services/predictions.ts`) -/

/-- `calculateCashoutValue`: margin 0.9 once the event has started,
0.95 before; value `max(0, floor(stake × (originalOdds / currentOdds) ×
margin))`. -/
def calculateCashoutValue (originalStakeTokens : Int) (originalOdds currentOdds : Rat)
    (eventStarted : Bool) : Int :=
  let margin : Rat := if eventStarted then mkRat 9 10 else mkRat 19 20
  let cashoutValue :=
    (ratMul (ratMul (originalStakeTokens : ℚ) (ratDiv originalOdds currentOdds)) margin).floor
  max 0 cashoutValue

/-- **C7.** `calculateCashoutValue stake o c started` equals
`max(0, ⌊stake × (o / c) × margin⌋)` with margin 0.95 before the start
and 0.90 after; hence 9 for `(10, 2, 2, false)` and `(10, 2, 2, true)`,
14 for `(10, 3, 2, false)`, 6 for `(10, 2, 3, false)`, and never
negative — e.g. 0 for `(1, 1.1, 100, false)`. -/
theorem calculateCashoutValue_spec :
    (∀ (s : Int) (o c : ℚ) (b : Bool), calculateCashoutValue s o c b =
       max 0 ⌊(s : ℚ) * (o / c) * (if b then (9:ℚ)/10 else 19/20)⌋)
    ∧ calculateCashoutValue 10 (mkRat 2 1) (mkRat 2 1) false = 9
    ∧ calculateCashoutValue 10 (mkRat 2 1) (mkRat 2 1) true = 9
    ∧ calculateCashoutValue 10 (mkRat 3 1) (mkRat 2 1) false = 14
    ∧ calculateCashoutValue 10 (mkRat 2 1) (mkRat 3 1) false = 6
    ∧ calculateCashoutValue 1 (mkRat 11 10) (mkRat 100 1) false = 0
    ∧ (∀ (s : Int) (o c : ℚ) (b : Bool), 0 ≤ calculateCashoutValue s o c b) := by
  refine ⟨?_, by decide, by decide, by decide, by decide, by decide, ?_⟩
  · intro s o c b
    show max 0 _ = max 0 _
    rw [ratMul_eq, ratMul_eq, ratDiv_eq, ratFloor_eq]
    cases b
    · norm_num [Rat.mkRat_eq_div]
    · norm_num [Rat.mkRat_eq_div]
  · intro s o c b
    exact le_max_left 0 _

/-! ## Outcome matching (`src/services/outcomes.ts`) and the worker's
outcome determination (`src/services/settlementWorker.ts`)

`normalizeOutcome` is `value.trim().toLowerCase().replace(/\s+/g, ' ')`:
trim, lowercase, collapse each whitespace run to one space.  Scores come
from the external provider as strings; `Number(entry.score)` is modelled
as `Option Int` with `none` for a missing/non-numeric value. -/

def jsTrim (l : List Char) : List Char :=
  ((l.dropWhile Char.isWhitespace).reverse.dropWhile Char.isWhitespace).reverse

/-- Collapse whitespace runs to single spaces (`replace(/\s+/g, ' ')`);
the flag records whether the previous character was whitespace. -/
def squashAux : Bool → List Char → List Char
  | _, [] => []
  | prevWs, c :: cs =>
    if c.isWhitespace then
      if prevWs then squashAux true cs
      else ' ' :: squashAux true cs
    else c :: squashAux false cs

def normalizeOutcome (s : String) : String :=
  String.mk (squashAux false ((jsTrim s.data).map Char.toLower))

/-- `hay.includes(needle)` on strings as character lists. -/
def containsSubstr : List Char → List Char → Bool
  | [], needle => needle.isEmpty
  | c :: rest, needle => needle.isPrefixOf (c :: rest) || containsSubstr rest needle

def matchOutcomeExact (outcomes : List String) (target : String) : Option String :=
  outcomes.find? (fun o => normalizeOutcome o = normalizeOutcome target)

def matchOutcomeByName (outcomes : List String) (name : String) : Option String :=
  match outcomes.find? (fun o => normalizeOutcome o = normalizeOutcome name) with
  | some o => some o
  | none =>
    outcomes.find? (fun o =>
      containsSubstr (normalizeOutcome o).data (normalizeOutcome name).data ||
      containsSubstr (normalizeOutcome name).data (normalizeOutcome o).data)

structure ScoreEntry where
  name : String
  score : Option Int
  deriving Repr, DecidableEq

structure OddsScore where
  completed : Bool
  scores : Option (List ScoreEntry)
  deriving Repr, DecidableEq

/-- `determineOutcome` from `settlementWorker.ts`.  Note the draw path:
on equal scores the event's outcomes are scanned for the *first* label
whose normalization *contains* `'draw'` — the exact-match step is not
attempted for draws. -/
def determineOutcome (outcomes : List String) (sc : OddsScore) : Option String :=
  match sc.scores with
  | none => none
  | some entries =>
    if entries.length < 2 then none
    else if entries.any (fun e => e.score.isNone) then none
    else
      match entries with
      | e1 :: e2 :: _ =>
        match e1.score, e2.score with
        | some s1, some s2 =>
          if s1 = s2 then
            outcomes.find? (fun o => containsSubstr (normalizeOutcome o).data "draw".data)
          else
            match matchOutcomeExact outcomes (if s1 > s2 then e1.name else e2.name) with
            | some m => some m
            | none => matchOutcomeByName outcomes (if s1 > s2 then e1.name else e2.name)
        | _, _ => none
      | _ => none

/-- Modelled from the claim's wording (C9): derive the winner name
(`'draw'` on equal scores, otherwise the higher-scoring side's name)
and map **that winner name** by case/whitespace-normalized exact match
first, then the fallback substring match. -/
def claimedDetermineOutcome (outcomes : List String) (sc : OddsScore) : Option String :=
  match sc.scores with
  | none => none
  | some entries =>
    if entries.length < 2 then none
    else if entries.any (fun e => e.score.isNone) then none
    else
      match entries with
      | e1 :: e2 :: _ =>
        match e1.score, e2.score with
        | some s1, some s2 =>
          let winnerName := if s1 = s2 then "draw"
                            else if s1 > s2 then e1.name else e2.name
          match matchOutcomeExact outcomes winnerName with
          | some m => some m
          | none => matchOutcomeByName outcomes winnerName
        | _, _ => none
      | _ => none

def drawScore : OddsScore :=
  { completed := true,
    scores := some [{ name := "HomeTeam", score := some 1 },
                    { name := "AwayTeam", score := some 1 }] }

/-- **C9 counterexample.** On the event outcomes `["No draw", "Draw"]`
with an equal final score, the code returns `"No draw"` (first outcome
whose normalization contains `'draw'`), while the claim's
exact-match-first procedure returns `"Draw"` — the claim as stated is
false of the code's draw path. -/
theorem determineOutcome_draw_counterexample :
    determineOutcome ["No draw", "Draw"] drawScore = some "No draw"
    ∧ claimedDetermineOutcome ["No draw", "Draw"] drawScore = some "Draw"
    ∧ determineOutcome ["No draw", "Draw"] drawScore ≠
        claimedDetermineOutcome ["No draw", "Draw"] drawScore :=
  ⟨by decide, by decide, by decide⟩

theorem matchOutcomeExact_mem {outcomes : List String} {t m : String}
    (h : matchOutcomeExact outcomes t = some m) : m ∈ outcomes :=
  List.mem_of_find?_eq_some h

theorem matchOutcomeByName_mem {outcomes : List String} {t m : String}
    (h : matchOutcomeByName outcomes t = some m) : m ∈ outcomes := by
  unfold matchOutcomeByName at h
  cases hf : outcomes.find? (fun o => normalizeOutcome o = normalizeOutcome t) with
  | some o =>
    rw [hf] at h
    cases h
    exact List.mem_of_find?_eq_some hf
  | none =>
    rw [hf] at h
    exact List.mem_of_find?_eq_some h

/-- **C9 (amended).** For a completed score with two numeric sides:
equal scores settle on the *first* outcome whose normalized label
contains `'draw'` (no exact-match-first step for draws), otherwise the
higher-scoring side's name is mapped by normalized exact match first and
the substring fallback second; any outcome returned is one of the
event's labels (never a guess), and a missing list, fewer than two
sides, or a non-numeric score yields `none`, so the event is skipped
and stays LOCKED. -/
theorem determineOutcome_characterization (outcomes : List String) (c : Bool) :
    (∀ (e1 e2 : ScoreEntry) (rest : List ScoreEntry) (s1 s2 : Int),
       e1.score = some s1 → e2.score = some s2 → (∀ e ∈ rest, e.score ≠ none) →
       determineOutcome outcomes { completed := c, scores := some (e1 :: e2 :: rest) } =
         (if s1 = s2 then
            outcomes.find? (fun o => containsSubstr (normalizeOutcome o).data "draw".data)
          else
            match matchOutcomeExact outcomes (if s1 > s2 then e1.name else e2.name) with
            | some m => some m
            | none => matchOutcomeByName outcomes (if s1 > s2 then e1.name else e2.name)))
    ∧ (∀ sc res, determineOutcome outcomes sc = some res → res ∈ outcomes)
    ∧ determineOutcome outcomes { completed := c, scores := none } = none
    ∧ (∀ entries, entries.length < 2 →
         determineOutcome outcomes { completed := c, scores := some entries } = none)
    ∧ (∀ entries, (∃ e ∈ entries, e.score = none) →
         determineOutcome outcomes { completed := c, scores := some entries } = none) := by
  refine ⟨?_, ?_, rfl, ?_, ?_⟩
  · intro e1 e2 rest s1 s2 h1 h2 hrest
    unfold determineOutcome
    dsimp only
    rw [if_neg (by simp)]
    have hany : (e1 :: e2 :: rest).any (fun e => e.score.isNone) = false := by
      simp only [List.any_cons, h1, h2, Option.isNone_some, Bool.false_or]
      rw [List.any_eq_false]
      intro e he
      have hne := hrest e he
      cases hsc : e.score with
      | none => exact absurd hsc hne
      | some v => simp
    rw [if_neg (by simp [hany])]
    rw [h1, h2]
  · intro sc res h
    unfold determineOutcome at h
    cases sc with
    | mk comp scores =>
      cases scores with
      | none => exact absurd h (by simp)
      | some entries =>
        dsimp only at h
        split_ifs at h with hlen hany
        match entries, hlen, h with
        | [], hlen, h => exact absurd (by simp) hlen
        | [e], hlen, h => exact absurd (by simp) hlen
        | e1 :: e2 :: rest, hlen, h =>
          dsimp only at h
          cases hs1 : e1.score with
          | none => rw [hs1] at h; exact absurd h (by simp)
          | some s1 =>
            cases hs2 : e2.score with
            | none => rw [hs1, hs2] at h; exact absurd h (by simp)
            | some s2 =>
              rw [hs1, hs2] at h
              dsimp only at h
              by_cases heq : s1 = s2
              · rw [if_pos heq] at h
                exact List.mem_of_find?_eq_some h
              · rw [if_neg heq] at h
                cases hex : matchOutcomeExact outcomes
                    (if s1 > s2 then e1.name else e2.name) with
                | some m =>
                  rw [hex] at h
                  cases h
                  exact matchOutcomeExact_mem hex
                | none =>
                  rw [hex] at h
                  exact matchOutcomeByName_mem h
  · intro entries hlen
    unfold determineOutcome
    dsimp only
    rw [if_pos hlen]
  · intro entries hex
    obtain ⟨e, he, hnone⟩ := hex
    unfold determineOutcome
    dsimp only
    by_cases hlen : entries.length < 2
    · rw [if_pos hlen]
    · rw [if_neg hlen]
      have hany : entries.any (fun x => x.score.isNone) = true := by
        rw [List.any_eq_true]
        exact ⟨e, he, by rw [hnone]; rfl⟩
      rw [if_pos hany]

theorem determineOutcome_characterization_witness :
    (({ name := "Arsenal", score := some 2 } : ScoreEntry).score = some 2
     ∧ ({ name := "Chelsea", score := some 1 } : ScoreEntry).score = some 1) ∧
    determineOutcome ["Arsenal", "Chelsea", "Draw"]
      { completed := true,
        scores := some [{ name := "Arsenal", score := some 2 },
                        { name := "Chelsea", score := some 1 }] } =
      (if (2:Int) = 1 then
         ["Arsenal", "Chelsea", "Draw"].find?
           (fun o => containsSubstr (normalizeOutcome o).data "draw".data)
       else
         match matchOutcomeExact ["Arsenal", "Chelsea", "Draw"]
             (if (2:Int) > 1 then "Arsenal" else "Chelsea") with
         | some m => some m
         | none => matchOutcomeByName ["Arsenal", "Chelsea", "Draw"]
             (if (2:Int) > 1 then "Arsenal" else "Chelsea")) :=
  ⟨⟨rfl, rfl⟩,
   (determineOutcome_characterization ["Arsenal", "Chelsea", "Draw"] true).1
     { name := "Arsenal", score := some 2 } { name := "Chelsea", score := some 1 }
     [] 2 1 (by decide) (by decide) (by simp)⟩

end Betting
